import Mathlib

/-!
Verification development for the Md-to-PDF (Tideflow) engineering core.

The development shallowly embeds two kinds of material:

* `src/src/components/Toolbar.tsx` — the `handleExportPDF` handler is embedded
  directly from the TypeScript source (JavaScript strings become `List Char`,
  the dialog result and the `pdf_path` field become `Option` values, and the
  handler's externally visible actions become an explicit effects record).

* The Render Coordinator, Artifact Lifecycle Manager and Scroll Position
  Mapper described by the specification.  Their implementation files are not
  part of the source tree provided here, so these components are modelled
  from the specification text itself; every such definition carries a doc
  comment starting with "Modelled from the spec:".
-/

/- ------------------------------------------------------------------
Toolbar.tsx : handleExportPDF
------------------------------------------------------------------ -/

/-- JavaScript strings are modelled as lists of characters. -/
abbrev JsStr := List Char

/-- Model of `String.prototype.toLowerCase` (per-character case folding). -/
def jsToLowerCase (s : JsStr) : JsStr := s.map Char.toLower

/-- Model of `String.prototype.endsWith`: `s.endsWith(suf)`. -/
def jsEndsWith (s suf : JsStr) : Bool := suf.isSuffixOf s

/-- Model of JavaScript falsiness of an optional string value:
`null`/`undefined` and the empty string are falsy. -/
def jsFalsyStr : Option JsStr → Bool
  | none => true
  | some s => s.isEmpty

/-- The character sequence of the literal `".pdf"`. -/
def pdfExt : JsStr := ['.', 'p', 'd', 'f']

/-- Embeds the destination fix-up line of `handleExportPDF`
(`if (!dest.toLowerCase().endsWith('.pdf')) dest = dest + '.pdf';`,
Toolbar.tsx line 190). -/
def ensurePdfExtension (dest : JsStr) : JsStr :=
  if jsEndsWith (jsToLowerCase dest) pdfExt then dest else dest ++ pdfExt

/-- Externally visible actions of one run of `handleExportPDF`
(Toolbar.tsx lines 170–201).  `warned` records the `handleError(...,
'warning')` call, `dialogOpened` records the `save(...)` dialog call,
`invoked` records the `invoke('save_pdf_as', { filePath, destination })`
call with its two arguments, and `succeeded` records the success toast.
The handler mutates no editor state in any branch of the source. -/
structure ExportEffects where
  warned : Bool
  dialogOpened : Bool
  invoked : Option (JsStr × JsStr)
  succeeded : Bool
deriving DecidableEq

/-- Embedding of `handleExportPDF` (Toolbar.tsx lines 170–201).
`pdfPath` is `editor.compileStatus.pdf_path`; `dialogResult` is the value
the `save` dialog resolves to (`none` for cancellation or a rejected
promise, which the source maps to `null` via `.catch(() => null)`). -/
def handleExportPDF (pdfPath : Option JsStr) (dialogResult : Option JsStr) :
    ExportEffects :=
  match pdfPath with
  | none => { warned := true, dialogOpened := false, invoked := none, succeeded := false }
  | some pdfSource =>
    if pdfSource.isEmpty then
      -- `if (!pdfSource)` is also taken for the empty string
      { warned := true, dialogOpened := false, invoked := none, succeeded := false }
    else
      match dialogResult with
      | none => { warned := false, dialogOpened := true, invoked := none, succeeded := false }
      | some dest =>
        if dest.isEmpty then
          -- `if (!dest) return;` is also taken for the empty string
          { warned := false, dialogOpened := true, invoked := none, succeeded := false }
        else
          { warned := false, dialogOpened := true,
            invoked := some (pdfSource, ensurePdfExtension dest), succeeded := true }

lemma jsToLowerCase_pdfExt : jsToLowerCase pdfExt = pdfExt := by decide

lemma jsEndsWith_append_pdfExt (d : JsStr) :
    jsEndsWith (jsToLowerCase (d ++ pdfExt)) pdfExt = true := by
  unfold jsToLowerCase
  rw [List.map_append]
  show pdfExt.isSuffixOf (List.map Char.toLower d ++ jsToLowerCase pdfExt) = true
  rw [jsToLowerCase_pdfExt]
  simp [List.isSuffixOf]

/- ------------------------------------------------------------------
Artifact Lifecycle Manager (modelled from the spec, section 4.2)
------------------------------------------------------------------ -/

/-- Modelled from the spec: the Artifact Lifecycle Manager's implementation
is not part of the provided source tree.  A `TempArtifact` is one on-disk
render output: path, creation timestamp, owning document identity, and the
"active" flag that is true while the artifact is the most recently surfaced
result for its document. -/
structure TempArtifact where
  path : Nat
  createdAt : Nat
  docId : Nat
  active : Bool
deriving DecidableEq

/-- Modelled from the spec: the number of inactive artifacts of the same
document that are newer than `a`; `a` is among the most recent `k` inactive
artifacts of its document exactly when this count is `< k`. -/
def inactiveNewerCount (arts : List TempArtifact) (a : TempArtifact) : Nat :=
  (arts.filter
    (fun b => b.docId == a.docId && !b.active && decide (a.createdAt < b.createdAt))).length

/-- Modelled from the spec: `sweep` deletes every artifact that is inactive
AND older than the retention window AND not among the most recent `k`
inactive artifacts retained per document (default `k = 0`). -/
def eligibleForDeletion (now retention k : Nat) (arts : List TempArtifact)
    (a : TempArtifact) : Bool :=
  !a.active && decide (retention < now - a.createdAt) &&
    decide (k ≤ inactiveNewerCount arts a)

/-- Modelled from the spec: `sweep()` keeps exactly the artifacts that are
not eligible for deletion. -/
def sweep (now retention k : Nat) (arts : List TempArtifact) : List TempArtifact :=
  arts.filter (fun a => !eligibleForDeletion now retention k arts a)

/-- Modelled from the spec: `register(documentId, path, timestamp)` marks any
previously active artifact of the document inactive and appends the new
artifact as active. -/
def register (docId path timestamp : Nat) (arts : List TempArtifact) :
    List TempArtifact :=
  (arts.map (fun b => if b.docId == docId then { b with active := false } else b))
    ++ [⟨path, timestamp, docId, true⟩]

/-- Modelled from the spec: `releaseAll(documentId)` deletes every artifact
of a closed document; active-artifact protection applies to open documents
only, i.e. to artifacts still tracked in the registry. -/
def releaseAll (docId : Nat) (arts : List TempArtifact) : List TempArtifact :=
  arts.filter (fun b => !(b.docId == docId))

/- ------------------------------------------------------------------
Render Coordinator (modelled from the spec, sections 4.1 and 5)
------------------------------------------------------------------ -/

/-- Modelled from the spec: the outcome reported by the external renderer,
success or a structured failure with an error payload. -/
inductive RenderOutcome where
  | ok : RenderOutcome
  | err : Nat → RenderOutcome
deriving DecidableEq

/-- Modelled from the spec: per-document state of the Render Coordinator.
`gen` is the latest generation assigned by `requestRender` (0 before the
first request), `timer` the armed debounce deadline (single-shot,
reset-on-reschedule), `latest` the latest content, `inflight` the render
jobs currently executing (generation and content at start), `pendingNext`
the queued trailing execution flag, and `surfaced` the generations whose
results were surfaced, in surfacing order. -/
structure CoordState (α : Type) where
  gen : Nat
  timer : Option Nat
  latest : α
  inflight : List (Nat × α)
  pendingNext : Bool
  surfaced : List Nat
deriving DecidableEq

/-- Modelled from the spec: the coordinator's initial state for a freshly
opened document (generation counter reset, no timer, nothing in flight). -/
def init {α : Type} (c0 : α) : CoordState α :=
  { gen := 0, timer := none, latest := c0, inflight := [], pendingNext := false,
    surfaced := [] }

/-- Modelled from the spec: observable outputs of the coordinator —
external-renderer invocations starting (`started t gen content`), results
surfaced to the caller, per-generation failure reports with an error
payload, and internal stale-result discards. -/
inductive Out (α : Type) where
  | started : Nat → Nat → α → Out α
  | surfacedRes : Nat → Out α
  | failureRep : Nat → Nat → Out α
  | discarded : Nat → Out α
deriving DecidableEq

/-- Modelled from the spec: `requestRender` assigns the next generation,
records the newest content and (re-)arms the debounce timer to `t + D`;
it never executes immediately. -/
def requestRender {α : Type} (D t : Nat) (c : α) (s : CoordState α) : CoordState α :=
  { s with gen := s.gen + 1, timer := some (t + D), latest := c }

/-- Modelled from the spec: a debounce firing runs `executeRender`; if a
render is already in flight the request is queued as pending-next and the
in-flight job is not interrupted, otherwise a job for the current
generation and latest content starts. -/
def executeRender {α : Type} (t : Nat) (s : CoordState α) :
    CoordState α × List (Out α) :=
  match s.inflight with
  | [] => ({ s with inflight := [(s.gen, s.latest)] }, [Out.started t s.gen s.latest])
  | _ => ({ s with pendingNext := true }, [])

/-- Modelled from the spec: the single-shot debounce timer fires once its
deadline has been reached and is consumed by firing. -/
def fireTimer {α : Type} (t : Nat) (s : CoordState α) :
    CoordState α × List (Out α) :=
  match s.timer with
  | some d => if d ≤ t then executeRender t { s with timer := none } else (s, [])
  | none => (s, [])

/-- Modelled from the spec: after a completion is handled, a queued
pending-next execution starts immediately, using the latest content and the
latest generation available at that time. -/
def startPending {α : Type} (t : Nat) (s : CoordState α) :
    CoordState α × List (Out α) :=
  if s.pendingNext then
    ({ s with pendingNext := false, inflight := [(s.gen, s.latest)] },
      [Out.started t s.gen s.latest])
  else (s, [])

/-- Modelled from the spec: on external-renderer completion of the in-flight
job for generation `g`, the coordinator compares `g` with the latest
requested generation: a superseded result is discarded, otherwise a success
is surfaced and a failure is reported once with its error payload; in every
case a queued pending-next execution then starts immediately. -/
def completeJob {α : Type} (t g : Nat) (o : RenderOutcome) (s : CoordState α) :
    CoordState α × List (Out α) :=
  match s.inflight with
  | [(g0, _)] =>
    if g0 = g then
      let s1 : CoordState α := { s with inflight := [] }
      if g < s.gen then
        let r := startPending t s1
        (r.1, Out.discarded g :: r.2)
      else
        match o with
        | RenderOutcome.ok =>
          let s2 : CoordState α := { s1 with surfaced := s1.surfaced ++ [g] }
          let r := startPending t s2
          (r.1, Out.surfacedRes g :: r.2)
        | RenderOutcome.err e =>
          let r := startPending t s1
          (r.1, Out.failureRep g e :: r.2)
    else (s, [])
  | _ => (s, [])

/-- Modelled from the spec: events a single document's coordinator reacts
to — `requestRender` calls, debounce-timer firings and external-renderer
completions, each carrying its instant. -/
inductive Ev (α : Type) where
  | request : Nat → α → Ev α
  | fire : Nat → Ev α
  | complete : Nat → Nat → RenderOutcome → Ev α
deriving DecidableEq

/-- Modelled from the spec: one step of the per-document coordinator. -/
def step {α : Type} (D : Nat) (s : CoordState α) (e : Ev α) :
    CoordState α × List (Out α) :=
  match e with
  | Ev.request t c => (requestRender D t c s, [])
  | Ev.fire t => fireTimer t s
  | Ev.complete t g o => completeJob t g o s

/-- Modelled from the spec: a run of the coordinator over an event trace,
accumulating the outputs in order. -/
def run {α : Type} (D : Nat) (s : CoordState α) : List (Ev α) →
    CoordState α × List (Out α)
  | [] => (s, [])
  | e :: es =>
    let r1 := step D s e
    let r2 := run D r1.1 es
    (r2.1, r1.2 ++ r2.2)

/-- External-renderer invocations recorded in an output trace. -/
def startsOf {α : Type} (outs : List (Out α)) : List (Nat × Nat × α) :=
  outs.filterMap fun o =>
    match o with
    | Out.started t g c => some (t, g, c)
    | _ => none

/-- Generations surfaced to the caller, in surfacing order. -/
def surfacedGens {α : Type} (outs : List (Out α)) : List Nat :=
  outs.filterMap fun o =>
    match o with
    | Out.surfacedRes g => some g
    | _ => none

/- ------------------------------------------------------------------
Coordinator invariants
------------------------------------------------------------------ -/

/-- Inductive invariant of the per-document coordinator: at most one job is
in flight, in-flight generations never exceed the latest requested
generation, and the surfaced generations form a non-decreasing sequence
bounded by the latest requested generation. -/
def CoordInv {α : Type} (s : CoordState α) : Prop :=
  s.inflight.length ≤ 1 ∧
  (∀ p ∈ s.inflight, p.1 ≤ s.gen) ∧
  List.Chain' (· ≤ ·) s.surfaced ∧
  (∀ x ∈ s.surfaced, x ≤ s.gen)

lemma chain'_le_append_singleton (l : List Nat) (g : Nat)
    (h : List.Chain' (· ≤ ·) l) (hb : ∀ x ∈ l, x ≤ g) :
    List.Chain' (· ≤ ·) (l ++ [g]) := by
  induction l with
  | nil => simp
  | cons x xs ih =>
      cases xs with
      | nil => simpa using hb x (by simp)
      | cons y ys =>
          rw [List.cons_append, List.cons_append, List.chain'_cons]
          rw [List.chain'_cons] at h
          refine ⟨h.1, ?_⟩
          have := ih h.2 (fun z hz => hb z (List.mem_cons_of_mem _ hz))
          simpa using this

lemma CoordInv_init {α : Type} (c0 : α) : CoordInv (init c0) := by
  refine ⟨by simp [init], by simp [init], by simp [init], by simp [init]⟩

lemma CoordInv_startPending {α : Type} (t : Nat) (s : CoordState α)
    (h : CoordInv s) : CoordInv (startPending t s).1 := by
  obtain ⟨h1, h2, h3, h4⟩ := h
  unfold startPending
  by_cases hp : s.pendingNext
  · simp only [hp, if_true]
    exact ⟨by simp, by simp, h3, h4⟩
  · simp only [hp, if_false]
    exact ⟨h1, h2, h3, h4⟩

lemma CoordInv_requestRender {α : Type} (D t : Nat) (c : α) (s : CoordState α)
    (h : CoordInv s) : CoordInv (requestRender D t c s) := by
  obtain ⟨h1, h2, h3, h4⟩ := h
  refine ⟨h1, ?_, h3, ?_⟩
  · intro p hp
    exact le_trans (h2 p hp) (Nat.le_succ _)
  · intro x hx
    exact le_trans (h4 x hx) (Nat.le_succ _)

lemma CoordInv_executeRender {α : Type} (t : Nat) (s : CoordState α)
    (h : CoordInv s) : CoordInv (executeRender t s).1 := by
  obtain ⟨h1, h2, h3, h4⟩ := h
  unfold executeRender
  cases hfl : s.inflight with
  | nil => exact ⟨by simp, by simp, h3, h4⟩
  | cons p ps =>
      refine ⟨?_, ?_, h3, h4⟩
      · simpa [hfl] using h1
      · intro q hq
        exact h2 q (by simpa [hfl] using hq)

lemma CoordInv_fireTimer {α : Type} (t : Nat) (s : CoordState α)
    (h : CoordInv s) : CoordInv (fireTimer t s).1 := by
  obtain ⟨h1, h2, h3, h4⟩ := h
  unfold fireTimer
  cases htm : s.timer with
  | none => exact ⟨h1, h2, h3, h4⟩
  | some d =>
      by_cases hd : d ≤ t
      · simp only [hd, if_true]
        exact CoordInv_executeRender t _ ⟨h1, h2, h3, h4⟩
      · simp only [hd, if_false]
        exact ⟨h1, h2, h3, h4⟩

lemma CoordInv_completeJob {α : Type} (t g : Nat) (o : RenderOutcome)
    (s : CoordState α) (h : CoordInv s) : CoordInv (completeJob t g o s).1 := by
  obtain ⟨h1, h2, h3, h4⟩ := h
  cases hfl : s.inflight with
  | nil =>
      simp only [completeJob, hfl]
      exact ⟨by simp [hfl], by simp [hfl], h3, h4⟩
  | cons p ps =>
      cases ps with
      | cons q qs =>
          simp only [completeJob, hfl]
          exact ⟨by simpa [hfl] using h1, by simpa [hfl] using h2, h3, h4⟩
      | nil =>
          obtain ⟨g0, c0⟩ := p
          simp only [completeJob, hfl]
          by_cases hg : g0 = g
          · simp only [hg, if_true]
            have hgle : g ≤ s.gen := by
              have := h2 (g0, c0) (by rw [hfl]; exact List.mem_singleton.mpr rfl)
              simpa [hg] using this
            by_cases hlt : g < s.gen
            · simp only [hlt, if_true]
              exact CoordInv_startPending t _ ⟨by simp, by simp, h3, h4⟩
            · simp only [hlt, if_false]
              have hge : s.gen ≤ g := Nat.le_of_not_lt hlt
              cases o with
              | ok =>
                  refine CoordInv_startPending t _ ⟨by simp, by simp, ?_, ?_⟩
                  · exact chain'_le_append_singleton _ _ h3
                      (fun x hx => le_trans (h4 x hx) hge)
                  · intro x hx
                    rcases List.mem_append.mp hx with hx | hx
                    · exact h4 x hx
                    · have hxg : x = g := by simpa using hx
                      simpa [hxg] using hgle
              | err e =>
                  exact CoordInv_startPending t _ ⟨by simp, by simp, h3, h4⟩
          · simp only [hg, if_false]
            exact ⟨by simpa [hfl] using h1, by simpa [hfl] using h2, h3, h4⟩

lemma CoordInv_step {α : Type} (D : Nat) (s : CoordState α) (e : Ev α)
    (h : CoordInv s) : CoordInv (step D s e).1 := by
  cases e with
  | request t c => exact CoordInv_requestRender D t c s h
  | fire t => exact CoordInv_fireTimer t s h
  | complete t g o => exact CoordInv_completeJob t g o s h

lemma CoordInv_run {α : Type} (D : Nat) (s : CoordState α) (evs : List (Ev α))
    (h : CoordInv s) : CoordInv (run D s evs).1 := by
  induction evs generalizing s with
  | nil => exact h
  | cons e es ih => exact ih _ (CoordInv_step D s e h)

lemma startPending_surfaced {α : Type} (t : Nat) (s : CoordState α) :
    (startPending t s).1.surfaced = s.surfaced := by
  unfold startPending
  by_cases hp : s.pendingNext <;> simp [hp]

lemma surfacedGens_startPending {α : Type} (t : Nat) (s : CoordState α) :
    surfacedGens (startPending t s).2 = [] := by
  unfold startPending
  by_cases hp : s.pendingNext <;> simp [hp, surfacedGens]

lemma not_surfacedRes_mem_startPending {α : Type} (t : Nat) (s : CoordState α)
    (g : Nat) : Out.surfacedRes g ∉ (startPending t s).2 := by
  unfold startPending
  by_cases hp : s.pendingNext <;> simp [hp]

lemma surfacedGens_append {α : Type} (o1 o2 : List (Out α)) :
    surfacedGens (o1 ++ o2) = surfacedGens o1 ++ surfacedGens o2 := by
  simp [surfacedGens]

lemma surfacedGens_nil {α : Type} : surfacedGens ([] : List (Out α)) = [] := rfl

lemma surfacedGens_cons_started {α : Type} (t g : Nat) (c : α) (l : List (Out α)) :
    surfacedGens (Out.started t g c :: l) = surfacedGens l := rfl

lemma surfacedGens_cons_discarded {α : Type} (g : Nat) (l : List (Out α)) :
    surfacedGens (Out.discarded g :: l) = surfacedGens l := rfl

lemma surfacedGens_cons_failureRep {α : Type} (g e : Nat) (l : List (Out α)) :
    surfacedGens (Out.failureRep g e :: l) = surfacedGens l := rfl

lemma surfacedGens_cons_surfacedRes {α : Type} (g : Nat) (l : List (Out α)) :
    surfacedGens (Out.surfacedRes g :: l) = g :: surfacedGens l := rfl

lemma surfaced_step {α : Type} (D : Nat) (s : CoordState α) (e : Ev α) :
    (step D s e).1.surfaced = s.surfaced ++ surfacedGens (step D s e).2 := by
  cases e with
  | request t c => simp [step, requestRender, surfacedGens]
  | fire t =>
      simp only [step]
      cases htm : s.timer with
      | none => simp [fireTimer, htm, surfacedGens]
      | some d =>
          by_cases hd : d ≤ t
          · simp only [fireTimer, htm, hd, if_true]
            cases hfl : s.inflight <;> simp [executeRender, hfl, surfacedGens]
          · simp [fireTimer, htm, hd, surfacedGens]
  | complete t g o =>
      simp only [step]
      cases hfl : s.inflight with
      | nil => simp [completeJob, hfl, surfacedGens]
      | cons p ps =>
          cases ps with
          | cons q qs => simp [completeJob, hfl, surfacedGens]
          | nil =>
              obtain ⟨g0, c0⟩ := p
              simp only [completeJob, hfl]
              by_cases hg : g0 = g
              · simp only [hg, if_true]
                by_cases hlt : g < s.gen
                · simp [hlt, surfacedGens_cons_discarded, surfacedGens_nil,
                    surfacedGens_startPending, startPending_surfaced]
                · cases o with
                  | ok =>
                      simp [hlt, surfacedGens_cons_surfacedRes, surfacedGens_nil,
                        surfacedGens_startPending, startPending_surfaced]
                  | err e0 =>
                      simp [hlt, surfacedGens_cons_failureRep, surfacedGens_nil,
                        surfacedGens_startPending, startPending_surfaced]
              · simp [hg, surfacedGens]

lemma surfaced_run {α : Type} (D : Nat) (s : CoordState α) (evs : List (Ev α)) :
    (run D s evs).1.surfaced = s.surfaced ++ surfacedGens (run D s evs).2 := by
  induction evs generalizing s with
  | nil => simp [run, surfacedGens]
  | cons e es ih =>
      simp only [run]
      rw [surfacedGens_append, ih (step D s e).1, ← List.append_assoc,
        ← surfaced_step]

lemma surfacedRes_step_gen {α : Type} (D : Nat) (s : CoordState α) (e : Ev α)
    (g : Nat) (hinv : CoordInv s)
    (hmem : Out.surfacedRes g ∈ (step D s e).2) : g = s.gen := by
  cases e with
  | request t c => simp [step] at hmem
  | fire t =>
      simp only [step] at hmem
      cases htm : s.timer with
      | none => simp [fireTimer, htm] at hmem
      | some d =>
          by_cases hd : d ≤ t
          · simp only [fireTimer, htm, hd, if_true] at hmem
            cases hfl : s.inflight with
            | nil => simp [executeRender, hfl] at hmem
            | cons p ps => simp [executeRender, hfl] at hmem
          · simp [fireTimer, htm, hd] at hmem
  | complete t g' o =>
      simp only [step] at hmem
      cases hfl : s.inflight with
      | nil => simp [completeJob, hfl] at hmem
      | cons p ps =>
          cases ps with
          | cons q qs => simp [completeJob, hfl] at hmem
          | nil =>
              obtain ⟨g0, c0⟩ := p
              simp only [completeJob, hfl] at hmem
              by_cases hg : g0 = g'
              · simp only [hg, if_true] at hmem
                by_cases hlt : g' < s.gen
                · simp only [hlt, if_true, List.mem_cons] at hmem
                  rcases hmem with hmem | hmem
                  · exact absurd hmem (by simp)
                  · exact absurd hmem (not_surfacedRes_mem_startPending t _ g)
                · simp only [hlt, if_false] at hmem
                  cases o with
                  | ok =>
                      simp only [List.mem_cons] at hmem
                      rcases hmem with hmem | hmem
                      · have hgg : g = g' := by
                          simpa using hmem
                        have hle : g' ≤ s.gen := by
                          have := hinv.2.1 (g0, c0)
                            (by rw [hfl]; exact List.mem_singleton.mpr rfl)
                          simpa [hg] using this
                        omega
                      · exact absurd hmem (not_surfacedRes_mem_startPending t _ g)
                  | err e0 =>
                      simp only [List.mem_cons] at hmem
                      rcases hmem with hmem | hmem
                      · exact absurd hmem (by simp)
                      · exact absurd hmem (not_surfacedRes_mem_startPending t _ g)
              · simp [hg] at hmem

/-- C1: for a single document and any interleaving of `requestRender` calls,
debounce firings and external-renderer completions, at most one
external-renderer invocation (render job) is in flight at any instant.
Cross-document independence is modelled by running one coordinator per
document, so the single-document statement covers every document. -/
theorem claim_C1_single_flight {α : Type} (c0 : α) (D : Nat)
    (evs : List (Ev α)) :
    ((run D (init c0) evs).1.inflight).length ≤ 1 :=
  (CoordInv_run D (init c0) evs (CoordInv_init c0)).1

/-- C2: over every event interleaving, the generations surfaced to the
caller form a non-decreasing sequence (so no result of generation G is ever
surfaced after a result of generation G' > G), and a completion can surface
generation `g` only when `g` equals the latest generation requested for the
document at that instant (hence no greater generation has been requested,
and — since only requested generations ever run — none has completed). -/
theorem claim_C2_monotonic_surfacing {α : Type} (c0 : α) (D : Nat)
    (evs : List (Ev α)) :
    List.Chain' (· ≤ ·) (surfacedGens (run D (init c0) evs).2) ∧
    ∀ (e : Ev α) (g : Nat),
      Out.surfacedRes g ∈ (step D (run D (init c0) evs).1 e).2 →
      g = (run D (init c0) evs).1.gen := by
  constructor
  · have hinv := CoordInv_run D (init c0) evs (CoordInv_init c0)
    have hs := surfaced_run D (init c0) evs
    have : (init c0).surfaced = [] := rfl
    rw [this, List.nil_append] at hs
    rw [← hs]
    exact hinv.2.2.1
  · intro e g hmem
    exact surfacedRes_step_gen D _ e g
      (CoordInv_run D (init c0) evs (CoordInv_init c0)) hmem

/-- Witness for C2: in a concrete run where generation 1 is requested and
executed, completing it surfaces generation 1, which is indeed the latest
requested generation. -/
theorem claim_C2_monotonic_surfacing_witness :
    1 = (run 300 (init (7 : Nat)) [Ev.request 0 7, Ev.fire 300]).1.gen :=
  (claim_C2_monotonic_surfacing 7 300 [Ev.request 0 7, Ev.fire 300]).2
    (Ev.complete 400 1 RenderOutcome.ok) 1 (by decide)

/-- C8: when the in-flight external-renderer invocation for the current
generation `g` fails, the failure is reported exactly once for `g` with its
error payload; it is not retried automatically (with no pending-next
queued, nothing new starts and the coordinator is left with an empty
in-flight slot, immediately eligible for the next queued generation); and a
queued pending-next execution is not cleared — it starts immediately with
the latest generation and content. -/
theorem claim_C8_failure_semantics {α : Type} (s : CoordState α)
    (t g e : Nat) (c : α) (hfl : s.inflight = [(g, c)]) (hg : s.gen = g) :
    (s.pendingNext = false →
      completeJob t g (RenderOutcome.err e) s
        = ({ s with inflight := [] }, [Out.failureRep g e])) ∧
    (s.pendingNext = true →
      completeJob t g (RenderOutcome.err e) s
        = ({ s with inflight := [(s.gen, s.latest)], pendingNext := false },
            [Out.failureRep g e, Out.started t s.gen s.latest])) := by
  constructor
  · intro hp
    simp [completeJob, hfl, hg, startPending, hp]
  · intro hp
    simp [completeJob, hfl, hg, startPending, hp]

/-- Witness for C8: a concrete coordinator state with generation 1 in
flight and a pending-next queued; the failing completion reports the
failure once and immediately starts the queued execution. -/
theorem claim_C8_failure_semantics_witness :
    (({ gen := 1, timer := none, latest := 5, inflight := [(1, 5)],
        pendingNext := true, surfaced := [] } : CoordState Nat).pendingNext = false →
      completeJob 400 1 (RenderOutcome.err 9)
          ({ gen := 1, timer := none, latest := 5, inflight := [(1, 5)],
             pendingNext := true, surfaced := [] } : CoordState Nat)
        = ({ ({ gen := 1, timer := none, latest := 5, inflight := [(1, 5)],
                pendingNext := true, surfaced := [] } : CoordState Nat) with
              inflight := [] }, [Out.failureRep 1 9])) ∧
    (({ gen := 1, timer := none, latest := 5, inflight := [(1, 5)],
        pendingNext := true, surfaced := [] } : CoordState Nat).pendingNext = true →
      completeJob 400 1 (RenderOutcome.err 9)
          ({ gen := 1, timer := none, latest := 5, inflight := [(1, 5)],
             pendingNext := true, surfaced := [] } : CoordState Nat)
        = ({ ({ gen := 1, timer := none, latest := 5, inflight := [(1, 5)],
                pendingNext := true, surfaced := [] } : CoordState Nat) with
              inflight := [(1, 5)], pendingNext := false },
            [Out.failureRep 1 9, Out.started 400 1 5])) :=
  claim_C8_failure_semantics
    ({ gen := 1, timer := none, latest := 5, inflight := [(1, 5)],
       pendingNext := true, surfaced := [] } : CoordState Nat) 400 1 9 5 rfl rfl

/- ------------------------------------------------------------------
Debounce coalescing (spec sections 4.1 and 8)
------------------------------------------------------------------ -/

/-- Modelled from the spec: one `requestRender` arrival at time `t` under
real timer semantics — if the armed debounce deadline has already passed it
fires (at its deadline) before the request is recorded, then the request
assigns the next generation and re-arms the timer. -/
def stepRequest {α : Type} (D : Nat) (s : CoordState α) (t : Nat) (c : α) :
    CoordState α × List (Out α) :=
  let r :=
    match s.timer with
    | some d => if d ≤ t then fireTimer d s else (s, [])
    | none => (s, [])
  (requestRender D t c r.1, r.2)

/-- Modelled from the spec: a sequence of timed `requestRender` arrivals
processed under real timer semantics. -/
def runBurst {α : Type} (D : Nat) (s : CoordState α) :
    List (Nat × α) → CoordState α × List (Out α)
  | [] => (s, [])
  | (t, c) :: rest =>
    let r1 := stepRequest D s t c
    let r2 := runBurst D r1.1 rest
    (r2.1, r1.2 ++ r2.2)

/-- Modelled from the spec: input quiescence after a burst — the armed
debounce timer, if any, fires at its deadline. -/
def flushTimer {α : Type} (s : CoordState α) : CoordState α × List (Out α) :=
  match s.timer with
  | some d => fireTimer d s
  | none => (s, [])

/-- Modelled from the spec: a burst of requests followed by quiescence. -/
def runBurstThenIdle {α : Type} (D : Nat) (s : CoordState α)
    (reqs : List (Nat × α)) : CoordState α × List (Out α) :=
  let r1 := runBurst D s reqs
  let r2 := flushTimer r1.1
  (r2.1, r1.2 ++ r2.2)

/-- Arrival time of the first request of `l`, defaulting to `tl`. -/
def headTime {α : Type} (l : List (Nat × α)) (tl : Nat) : Nat :=
  match l with
  | [] => tl
  | p :: _ => p.1

lemma runBurst_eq {α : Type} (D : Nat) :
    ∀ (body : List (Nat × α)) (tl : Nat) (cl : α) (s : CoordState α),
      s.inflight = [] →
      (∀ d, s.timer = some d → headTime body tl < d) →
      List.Chain' (fun p q : Nat × α => q.1 < p.1 + D) (body ++ [(tl, cl)]) →
      runBurst D s (body ++ [(tl, cl)])
        = ({ s with
              gen := s.gen + (body.length + 1),
              timer := some (tl + D),
              latest := cl }, []) := by
  intro body
  induction body with
  | nil =>
      intro tl cl s hfl htm _
      cases htimer : s.timer with
      | none =>
          simp [runBurst, stepRequest, htimer, requestRender]
      | some d =>
          have hlt : tl < d := htm d htimer
          have hnot : ¬ d ≤ tl := Nat.not_le_of_lt hlt
          simp [runBurst, stepRequest, htimer, hnot, requestRender]
  | cons hd0 body' ih =>
      intro tl cl s hfl htm hchain
      obtain ⟨t0, c0⟩ := hd0
      have hnofire :
          (match s.timer with
            | some d => if d ≤ t0 then fireTimer d s else (s, ([] : List (Out α)))
            | none => (s, [])) = (s, []) := by
        cases htimer : s.timer with
        | none => rfl
        | some d =>
            have hlt : t0 < d := htm d htimer
            have hnot : ¬ d ≤ t0 := Nat.not_le_of_lt hlt
            simp [hnot]
      have hchain' :
          List.Chain' (fun p q : Nat × α => q.1 < p.1 + D) (body' ++ [(tl, cl)]) :=
        (List.chain'_cons'.mp (by simpa using hchain)).2
      have hhead :
          ∀ y ∈ (body' ++ [(tl, cl)]).head?, y.1 < t0 + D :=
        (List.chain'_cons'.mp (by simpa using hchain)).1
      have hnext : headTime body' tl < t0 + D := by
        cases body' with
        | nil => simpa [headTime] using hhead (tl, cl) (by simp)
        | cons p rest => simpa [headTime] using hhead p (by simp)
      have hstep :
          stepRequest D s t0 c0
            = ({ s with
                  gen := s.gen + 1,
                  timer := some (t0 + D),
                  latest := c0 }, []) := by
        simp only [stepRequest, hnofire]
        rfl
      have hrec := ih tl cl
        ({ s with gen := s.gen + 1, timer := some (t0 + D), latest := c0 })
        (by simpa using hfl)
        (by intro d hd; simp at hd; omega)
        hchain'
      simp only [List.cons_append, runBurst, List.append_eq, hstep, hrec]
      simp only [Prod.mk.injEq, CoordState.mk.injEq, List.length_cons]
      refine ⟨⟨?_, trivial, trivial, trivial, trivial, trivial⟩, by simp⟩
      omega

/-- C4: for every burst of `requestRender` calls on one document whose
inter-arrival gaps are shorter than the debounce interval `D`, exactly one
trailing render execution occurs after the burst, at the last arrival time
plus `D`, and it uses the content of the last request of the burst; in
particular three requests at t=0, t=50 and t=80 with D=300 produce exactly
one execution, at t=380, using the t=80 content. -/
theorem claim_C4_debounce_coalescing :
    (∀ (α : Type) (D : Nat) (x : α) (body : List (Nat × α)) (tl : Nat) (cl : α),
      List.Chain' (fun p q : Nat × α => q.1 < p.1 + D) (body ++ [(tl, cl)]) →
      startsOf (runBurstThenIdle D (init x) (body ++ [(tl, cl)])).2
        = [(tl + D, body.length + 1, cl)]) ∧
    (∀ a b c : Nat,
      startsOf (runBurstThenIdle 300 (init a) [(0, a), (50, b), (80, c)]).2
        = [(380, 3, c)]) := by
  have hgen : ∀ (α : Type) (D : Nat) (x : α) (body : List (Nat × α)) (tl : Nat)
      (cl : α),
      List.Chain' (fun p q : Nat × α => q.1 < p.1 + D) (body ++ [(tl, cl)]) →
      startsOf (runBurstThenIdle D (init x) (body ++ [(tl, cl)])).2
        = [(tl + D, body.length + 1, cl)] := by
    intro α D x body tl cl hchain
    have h1 := runBurst_eq D body tl cl (init x) rfl
      (by intro d hd; simp [init] at hd) hchain
    simp only [runBurstThenIdle, h1]
    simp [flushTimer, fireTimer, executeRender, startsOf, init]
  refine ⟨hgen, ?_⟩
  intro a b c
  have hinst := hgen Nat 300 a [(0, a), (50, b)] 80 c
    (by simp [List.chain'_cons])
  simpa using hinst

/-- Witness for C4: a concrete three-request burst with gaps below the
debounce interval yields exactly the one trailing execution. -/
theorem claim_C4_debounce_coalescing_witness :
    startsOf (runBurstThenIdle 300 (init (0 : Nat)) ([(0, 1), (50, 2)] ++ [(80, 3)])).2
      = [(80 + 300, [((0 : Nat), (1 : Nat)), (50, 2)].length + 1, 3)] :=
  claim_C4_debounce_coalescing.1 Nat 300 0 [(0, 1), (50, 2)] 80 3 (by simp [List.chain'_cons])

/-- C3: `sweep()` never deletes an artifact currently marked active, for
every retention window (any natural number, hence every value ≥ 0), every
current time (hence every elapsed age, including ages beyond the retention
window) and every retained-per-document count `k`. -/
theorem claim_C3_active_artifact_protected (now retention k : Nat)
    (arts : List TempArtifact) (a : TempArtifact)
    (ha : a ∈ arts) (hact : a.active = true) :
    a ∈ sweep now retention k arts := by
  unfold sweep
  refine List.mem_filter.mpr ⟨ha, ?_⟩
  simp [eligibleForDeletion, hact]

/-- Witness for C3: an active artifact created at time 0 survives a sweep
at time 1000000 with retention window 0, far beyond its retention age. -/
theorem claim_C3_active_artifact_protected_witness :
    (⟨1, 0, 1, true⟩ : TempArtifact) ∈ sweep 1000000 0 0 [⟨1, 0, 1, true⟩] :=
  claim_C3_active_artifact_protected 1000000 0 0 [⟨1, 0, 1, true⟩]
    ⟨1, 0, 1, true⟩ (List.mem_singleton.mpr rfl) rfl

/-- C9: whenever `editor.compileStatus.pdf_path` is absent (null, undefined
or the empty string), `handleExportPDF` reports a warning and returns
without opening the save dialog and without invoking the `save_pdf_as`
backend command; the handler mutates no editor state in this (or any)
branch of the source. -/
theorem claim_C9_no_export_without_pdf (pdfPath : Option JsStr)
    (dialogResult : Option JsStr) (h : jsFalsyStr pdfPath = true) :
    handleExportPDF pdfPath dialogResult
      = { warned := true, dialogOpened := false, invoked := none,
          succeeded := false } := by
  cases pdfPath with
  | none => rfl
  | some p =>
      have hp : p.isEmpty = true := by simpa [jsFalsyStr] using h
      simp [handleExportPDF, hp]

/-- Witness for C9: with no compiled PDF available, the handler only
warns, even though the (never-reached) dialog would have picked a path. -/
theorem claim_C9_no_export_without_pdf_witness :
    handleExportPDF none (some ['a'])
      = { warned := true, dialogOpened := false, invoked := none,
          succeeded := false } :=
  claim_C9_no_export_without_pdf none (some ['a']) rfl

/-- C10: for every destination the user chooses in the save dialog,
`save_pdf_as` is invoked with exactly the conditional fix-up of the chosen
path — if its lowercased form does not already end with ".pdf" the suffix
".pdf" is appended, otherwise the path is passed unchanged — and the
destination handed to the backend therefore always ends with ".pdf" in its
lowercased form. -/
theorem claim_C10_export_destination_pdf (pdfSource dest : JsStr)
    (hps : pdfSource.isEmpty = false) (hd : dest.isEmpty = false) :
    (handleExportPDF (some pdfSource) (some dest)).invoked
        = some (pdfSource, ensurePdfExtension dest) ∧
    jsEndsWith (jsToLowerCase (ensurePdfExtension dest)) pdfExt = true ∧
    (jsEndsWith (jsToLowerCase dest) pdfExt = true →
      ensurePdfExtension dest = dest) ∧
    (jsEndsWith (jsToLowerCase dest) pdfExt = false →
      ensurePdfExtension dest = dest ++ pdfExt) := by
  refine ⟨?_, ?_, ?_, ?_⟩
  · simp [handleExportPDF, hps, hd]
  · by_cases hend : jsEndsWith (jsToLowerCase dest) pdfExt = true
    · simpa [ensurePdfExtension, hend] using hend
    · have hfalse : jsEndsWith (jsToLowerCase dest) pdfExt = false := by
        simpa using hend
      simp [ensurePdfExtension, hfalse, jsEndsWith_append_pdfExt]
  · intro hend
    simp [ensurePdfExtension, hend]
  · intro hend
    simp [ensurePdfExtension, hend]

/-- Witness for C10: exporting to the one-character path "b" invokes the
backend with destination "b.pdf". -/
theorem claim_C10_export_destination_pdf_witness :
    (handleExportPDF (some ['a']) (some ['b'])).invoked
        = some (['a'], ensurePdfExtension ['b']) ∧
    jsEndsWith (jsToLowerCase (ensurePdfExtension ['b'])) pdfExt = true ∧
    (jsEndsWith (jsToLowerCase ['b']) pdfExt = true →
      ensurePdfExtension ['b'] = ['b']) ∧
    (jsEndsWith (jsToLowerCase ['b']) pdfExt = false →
      ensurePdfExtension ['b'] = ['b'] ++ pdfExt) :=
  claim_C10_export_destination_pdf ['a'] ['b'] rfl rfl

/- ------------------------------------------------------------------
Scroll Position Mapper (modelled from the spec, section 4.3)
------------------------------------------------------------------ -/

/-- Modelled from the spec: the adaptive bias constant (default 0.08). -/
def BASE_BIAS : ℝ := 0.08

/-- Modelled from the spec: the compressive-curve exponent (default 0.92). -/
def GAMMA : ℝ := 0.92

/-- Modelled from the spec: the bottom-of-document snap epsilon; the spec
leaves its exact value open, a representative small value is used. -/
def SNAP_EPS : ℝ := 0.001

/-- Clamp to the unit interval. -/
def clamp01 (x : ℝ) : ℝ := max 0 (min 1 x)

/-- Modelled from the spec: snap to 1.0 within an epsilon of the bottom. -/
noncomputable def snapTop (x : ℝ) : ℝ := if 1 - SNAP_EPS ≤ x then 1 else x

/-- Modelled from the spec: the forward scroll mapping of section 4.3 —
raw ratio, adaptive bias `BASE_BIAS * (1 - raw)`, compressive curve
`clamp(raw + bias, 0, 1) ^ GAMMA`, final clamp and bottom snap.  The
Scroll Position Mapper's implementation is not part of the provided source
tree; `pageHeights` is carried per the spec's signature, whose formula is
purely positional. -/
noncomputable def mapToPreviewRatio (lineIndex fracOffset totalLines : ℝ)
    (pageHeights : List ℝ) : ℝ :=
  let raw := (lineIndex + fracOffset) / totalLines
  let bias := BASE_BIAS * (1 - raw)
  let pre := clamp01 (raw + bias)
  snapTop (clamp01 (pre ^ GAMMA))

/-- Modelled from the spec: the best-effort inverse mapping of section 4.3
— the analytic inverse of the bias+gamma forward transform, clamping the
incoming preview ratio to the unit interval. -/
noncomputable def mapToDocumentPosition (previewRatio : ℝ)
    (pageHeights : List ℝ) (totalLines : ℝ) : ℝ :=
  let pre := (clamp01 previewRatio) ^ GAMMA⁻¹
  let raw := (pre - BASE_BIAS) / (1 - BASE_BIAS)
  raw * totalLines

lemma clamp01_nonneg (x : ℝ) : 0 ≤ clamp01 x := le_max_left 0 _

lemma clamp01_le_one (x : ℝ) : clamp01 x ≤ 1 :=
  max_le (by norm_num) (min_le_left 1 x)

lemma clamp01_mono {x y : ℝ} (h : x ≤ y) : clamp01 x ≤ clamp01 y :=
  max_le_max le_rfl (min_le_min le_rfl h)

lemma clamp01_eq_self {x : ℝ} (h0 : 0 ≤ x) (h1 : x ≤ 1) : clamp01 x = x := by
  unfold clamp01
  rw [min_eq_right h1, max_eq_right h0]

lemma snapTop_mono {x y : ℝ} (h : x ≤ y) : snapTop x ≤ snapTop y := by
  unfold snapTop
  by_cases hx : 1 - SNAP_EPS ≤ x
  · have hy : 1 - SNAP_EPS ≤ y := le_trans hx h
    simp [hx, hy]
  · by_cases hy : 1 - SNAP_EPS ≤ y
    · have hxlt : x < 1 - SNAP_EPS := lt_of_not_le hx
      have heps : (0 : ℝ) < SNAP_EPS := by norm_num [SNAP_EPS]
      simp only [hx, hy, if_true, if_false]
      linarith
    · simp [hx, hy, h]

lemma snapTop_nonneg {x : ℝ} (h0 : 0 ≤ x) : 0 ≤ snapTop x := by
  unfold snapTop
  by_cases hx : 1 - SNAP_EPS ≤ x
  · simp [hx]
  · simpa [hx] using h0

lemma snapTop_le_one {x : ℝ} (h1 : x ≤ 1) : snapTop x ≤ 1 := by
  unfold snapTop
  by_cases hx : 1 - SNAP_EPS ≤ x
  · simp [hx]
  · simpa [hx] using h1

lemma snapTop_eq_self {x : ℝ} (h : x < 1 - SNAP_EPS) : snapTop x = x :=
  if_neg (not_le.mpr h)

lemma le_rpow_of_pow_le {x b : ℝ} {m n : ℕ} (hx : 0 ≤ x) (hb : 0 ≤ b)
    (hn : n ≠ 0) (h : b ^ n ≤ x ^ m) : b ≤ x ^ ((m : ℝ) / (n : ℝ)) := by
  have hy0 : 0 ≤ x ^ ((m : ℝ) / (n : ℝ)) := Real.rpow_nonneg hx _
  have hyn : (x ^ ((m : ℝ) / (n : ℝ))) ^ n = x ^ m := by
    rw [← Real.rpow_natCast (x ^ ((m : ℝ) / (n : ℝ))) n, ← Real.rpow_mul hx,
      div_mul_cancel₀ (m : ℝ) (by exact_mod_cast hn : (n : ℝ) ≠ 0)]
    exact Real.rpow_natCast x m
  by_contra hcon
  push_neg at hcon
  have hpow : (x ^ ((m : ℝ) / (n : ℝ))) ^ n < b ^ n :=
    pow_lt_pow_left₀ hcon hy0 hn
  rw [hyn] at hpow
  linarith

lemma rpow_le_of_pow_le {x b : ℝ} {m n : ℕ} (hx : 0 ≤ x) (hb : 0 ≤ b)
    (hn : n ≠ 0) (h : x ^ m ≤ b ^ n) : x ^ ((m : ℝ) / (n : ℝ)) ≤ b := by
  have hy0 : 0 ≤ x ^ ((m : ℝ) / (n : ℝ)) := Real.rpow_nonneg hx _
  have hyn : (x ^ ((m : ℝ) / (n : ℝ))) ^ n = x ^ m := by
    rw [← Real.rpow_natCast (x ^ ((m : ℝ) / (n : ℝ))) n, ← Real.rpow_mul hx,
      div_mul_cancel₀ (m : ℝ) (by exact_mod_cast hn : (n : ℝ) ≠ 0)]
    exact Real.rpow_natCast x m
  by_contra hcon
  push_neg at hcon
  have hpow : b ^ n < (x ^ ((m : ℝ) / (n : ℝ))) ^ n :=
    pow_lt_pow_left₀ hcon hb hn
  rw [hyn] at hpow
  linarith

lemma mapToPreviewRatio_le_of_le {i f j g N : ℝ} (hN : 0 < N)
    (hs : i + f ≤ j + g) (ph : List ℝ) :
    mapToPreviewRatio i f N ph ≤ mapToPreviewRatio j g N ph := by
  unfold mapToPreviewRatio
  dsimp only
  apply snapTop_mono
  apply clamp01_mono
  apply Real.rpow_le_rpow (clamp01_nonneg _) ?_ (by norm_num [GAMMA])
  apply clamp01_mono
  have hraw : (i + f) / N ≤ (j + g) / N := (div_le_div_iff_of_pos_right hN).mpr hs
  unfold BASE_BIAS
  nlinarith [hraw]

lemma mapToPreviewRatio_mem (i f N : ℝ) (ph : List ℝ) :
    0 ≤ mapToPreviewRatio i f N ph ∧ mapToPreviewRatio i f N ph ≤ 1 := by
  unfold mapToPreviewRatio
  dsimp only
  exact ⟨snapTop_nonneg (clamp01_nonneg _), snapTop_le_one (clamp01_le_one _)⟩

/-- C5: for fixed `pageHeights` and `totalLines > 0`, `mapToPreviewRatio`
is non-decreasing as the pair (lineIndex, fractionalOffsetWithinLine)
increases lexicographically over valid inputs (line index a natural
number, fractional offset in [0,1]), and its output always lies in the
closed interval [0,1]. -/
theorem claim_C5_scroll_mapping_monotone (ph : List ℝ) (N : ℝ) (hN : 0 < N)
    (i j : ℕ) (f g : ℝ) (hf0 : 0 ≤ f) (hf1 : f ≤ 1) (hg0 : 0 ≤ g)
    (hg1 : g ≤ 1) (hlex : i < j ∨ (i = j ∧ f ≤ g)) :
    mapToPreviewRatio i f N ph ≤ mapToPreviewRatio j g N ph ∧
    0 ≤ mapToPreviewRatio i f N ph ∧ mapToPreviewRatio i f N ph ≤ 1 := by
  have hs : (i : ℝ) + f ≤ (j : ℝ) + g := by
    rcases hlex with h | ⟨he, hfg⟩
    · have hij : (i : ℝ) + 1 ≤ (j : ℝ) := by exact_mod_cast Nat.succ_le_of_lt h
      linarith
    · subst he
      linarith
  exact ⟨mapToPreviewRatio_le_of_le hN hs ph, mapToPreviewRatio_mem i f N ph⟩

/-- Witness for C5: with 1000 total lines, moving the cursor from line 1 to
line 2 does not decrease the mapped preview ratio, which lies in [0,1]. -/
theorem claim_C5_scroll_mapping_monotone_witness :
    mapToPreviewRatio ((1 : ℕ) : ℝ) 0 1000 [] ≤ mapToPreviewRatio ((2 : ℕ) : ℝ) 0 1000 [] ∧
    0 ≤ mapToPreviewRatio ((1 : ℕ) : ℝ) 0 1000 [] ∧
    mapToPreviewRatio ((1 : ℕ) : ℝ) 0 1000 [] ≤ 1 :=
  claim_C5_scroll_mapping_monotone [] 1000 (by norm_num) 1 2 0 0 le_rfl
    (by norm_num) le_rfl (by norm_num) (Or.inl (by norm_num))

lemma mapToPreviewRatio_eq {x N : ℝ} (ph : List ℝ) (h0 : 0 ≤ x) (hN : 0 < N)
    (h1 : x ≤ N) :
    mapToPreviewRatio x 0 N ph
      = snapTop ((x / N + BASE_BIAS * (1 - x / N)) ^ GAMMA) := by
  have hraw0 : 0 ≤ x / N := div_nonneg h0 hN.le
  have hraw1 : x / N ≤ 1 := by rw [div_le_one hN]; exact h1
  have hpre_lo : (0 : ℝ) ≤ x / N + BASE_BIAS * (1 - x / N) := by
    unfold BASE_BIAS
    nlinarith
  have hpre_hi : x / N + BASE_BIAS * (1 - x / N) ≤ 1 := by
    unfold BASE_BIAS
    nlinarith
  unfold mapToPreviewRatio
  dsimp only
  rw [add_zero]
  rw [clamp01_eq_self hpre_lo hpre_hi]
  rw [clamp01_eq_self (Real.rpow_nonneg hpre_lo _)
    (Real.rpow_le_one hpre_lo hpre_hi (by norm_num [GAMMA]))]

lemma rpow_gamma_054_lo : (0.565 : ℝ) ≤ (0.54 : ℝ) ^ GAMMA := by
  have hg : GAMMA = ((23 : ℕ) : ℝ) / ((25 : ℕ) : ℝ) := by
    norm_num [GAMMA]
  rw [hg]
  exact le_rpow_of_pow_le (by norm_num) (by norm_num) (by norm_num)
    (by norm_num)

lemma rpow_gamma_054_hi : (0.54 : ℝ) ^ GAMMA ≤ 0.568 := by
  have hg : GAMMA = ((23 : ℕ) : ℝ) / ((25 : ℕ) : ℝ) := by
    norm_num [GAMMA]
  rw [hg]
  exact rpow_le_of_pow_le (by norm_num) (by norm_num) (by norm_num)
    (by norm_num)

/-- C7: for lineIndex 500, fractional offset 0 and 1000 total lines, the
spec's worked scenario holds: the raw ratio is 0.5, the adaptive bias is
`BASE_BIAS * (1 - 0.5) = 0.04`, the pre-gamma value is 0.54, the mapped
ratio equals `0.54 ^ GAMMA`, and that value is approximately 0.565 (it
lies between 0.565 and 0.568, its true value being 0.5673...). -/
theorem claim_C7_scenario (ph : List ℝ) :
    ((500 : ℝ) + 0) / 1000 = 0.5 ∧
    BASE_BIAS * (1 - 0.5) = 0.04 ∧
    (0.5 : ℝ) + 0.04 = 0.54 ∧
    mapToPreviewRatio 500 0 1000 ph = (0.54 : ℝ) ^ GAMMA ∧
    (0.565 : ℝ) ≤ mapToPreviewRatio 500 0 1000 ph ∧
    mapToPreviewRatio 500 0 1000 ph ≤ 0.568 := by
  have harg : (500 : ℝ) / 1000 + BASE_BIAS * (1 - (500 : ℝ) / 1000) = 0.54 := by
    norm_num [BASE_BIAS]
  have hmap : mapToPreviewRatio 500 0 1000 ph = (0.54 : ℝ) ^ GAMMA := by
    rw [mapToPreviewRatio_eq ph (by norm_num) (by norm_num) (by norm_num),
      harg]
    refine snapTop_eq_self ?_
    have := rpow_gamma_054_hi
    unfold SNAP_EPS
    linarith
  refine ⟨by norm_num, by norm_num [BASE_BIAS], by norm_num, hmap, ?_, ?_⟩
  · rw [hmap]
    exact rpow_gamma_054_lo
  · rw [hmap]
    exact rpow_gamma_054_hi

/-- C6: for every document position `p` (0 ≤ p ≤ totalLines) in a document
whose render has at least 10 pages, the inverse mapping applied to the
forward mapping returns a position within 2% of totalLines of `p` (the
composition is exact away from the bottom snap region and within 1.2% of
the document end inside it), and `mapToDocumentPosition` is monotonic in
the preview ratio. -/
theorem claim_C6_round_trip (ph : List ℝ) (N p : ℝ) (hN : 0 < N)
    (hp0 : 0 ≤ p) (hpN : p ≤ N) (hpages : 10 ≤ ph.length) :
    |mapToDocumentPosition (mapToPreviewRatio p 0 N ph) ph N - p| ≤ 0.02 * N ∧
    ∀ r r', r ≤ r' →
      mapToDocumentPosition r ph N ≤ mapToDocumentPosition r' ph N := by
  have hraw0 : 0 ≤ p / N := div_nonneg hp0 hN.le
  have hraw1 : p / N ≤ 1 := by rw [div_le_one hN]; exact hpN
  have hpre_lo : (0.08 : ℝ) ≤ p / N + BASE_BIAS * (1 - p / N) := by
    unfold BASE_BIAS
    nlinarith
  have hpre_hi : p / N + BASE_BIAS * (1 - p / N) ≤ 1 := by
    unfold BASE_BIAS
    nlinarith
  have hγpos : (0 : ℝ) < GAMMA := by norm_num [GAMMA]
  have hγinv : (0 : ℝ) ≤ GAMMA⁻¹ := by norm_num [GAMMA]
  have hfwd := mapToPreviewRatio_eq ph hp0 hN hpN
  constructor
  · by_cases hsnap : (p / N + BASE_BIAS * (1 - p / N)) ^ GAMMA < 1 - SNAP_EPS
    · have hfwd2 : mapToPreviewRatio p 0 N ph
          = (p / N + BASE_BIAS * (1 - p / N)) ^ GAMMA := by
        rw [hfwd, snapTop_eq_self hsnap]
      have hm0 : 0 ≤ (p / N + BASE_BIAS * (1 - p / N)) ^ GAMMA :=
        Real.rpow_nonneg (by linarith) _
      have hm1 : (p / N + BASE_BIAS * (1 - p / N)) ^ GAMMA ≤ 1 :=
        Real.rpow_le_one (by linarith) hpre_hi hγpos.le
      have hinv : mapToDocumentPosition
          ((p / N + BASE_BIAS * (1 - p / N)) ^ GAMMA) ph N = p := by
        unfold mapToDocumentPosition
        dsimp only
        rw [clamp01_eq_self hm0 hm1,
          Real.rpow_rpow_inv (by linarith) (ne_of_gt hγpos)]
        have hq : (p / N + BASE_BIAS * (1 - p / N) - BASE_BIAS) / (1 - BASE_BIAS)
            = p / N := by
          unfold BASE_BIAS
          field_simp
          ring
        rw [hq, div_mul_cancel₀ p (ne_of_gt hN)]
      rw [hfwd2, hinv, sub_self, abs_zero]
      positivity
    · push_neg at hsnap
      have hfwd1 : mapToPreviewRatio p 0 N ph = 1 := by
        rw [hfwd]
        unfold snapTop
        rw [if_pos hsnap]
      have hinv1 : mapToDocumentPosition 1 ph N = N := by
        unfold mapToDocumentPosition
        dsimp only
        rw [clamp01_eq_self zero_le_one le_rfl, Real.one_rpow,
          div_self (by norm_num [BASE_BIAS] : (1 : ℝ) - BASE_BIAS ≠ 0), one_mul]
      have hpre_ge : (0.9816 : ℝ) ≤ p / N + BASE_BIAS * (1 - p / N) := by
        have h999 : (0.999 : ℝ) ≤ (p / N + BASE_BIAS * (1 - p / N)) ^ GAMMA := by
          unfold SNAP_EPS at hsnap
          linarith
        have hid : ((p / N + BASE_BIAS * (1 - p / N)) ^ GAMMA) ^ GAMMA⁻¹
            = p / N + BASE_BIAS * (1 - p / N) :=
          Real.rpow_rpow_inv (by linarith) (ne_of_gt hγpos)
        have hmono : (0.999 : ℝ) ^ GAMMA⁻¹
            ≤ ((p / N + BASE_BIAS * (1 - p / N)) ^ GAMMA) ^ GAMMA⁻¹ :=
          Real.rpow_le_rpow (by norm_num) h999 hγinv
        have hlo : (0.9816 : ℝ) ≤ (0.999 : ℝ) ^ GAMMA⁻¹ := by
          have hg : GAMMA⁻¹ = ((25 : ℕ) : ℝ) / ((23 : ℕ) : ℝ) := by
            norm_num [GAMMA]
          rw [hg]
          exact le_rpow_of_pow_le (by norm_num) (by norm_num) (by norm_num)
            (by norm_num)
        rw [hid] at hmono
        linarith
      have hratio : (0.98 : ℝ) ≤ p / N := by
        unfold BASE_BIAS at hpre_ge
        nlinarith
      have hpge : 0.98 * N ≤ p := (le_div_iff₀ hN).mp hratio
      rw [hfwd1, hinv1, abs_of_nonneg (by linarith : (0 : ℝ) ≤ N - p)]
      linarith
  · intro r r' hrr
    unfold mapToDocumentPosition
    dsimp only
    have h1 : clamp01 r ^ GAMMA⁻¹ ≤ clamp01 r' ^ GAMMA⁻¹ :=
      Real.rpow_le_rpow (clamp01_nonneg r) (clamp01_mono hrr) hγinv
    have h2 : (clamp01 r ^ GAMMA⁻¹ - BASE_BIAS) / (1 - BASE_BIAS)
        ≤ (clamp01 r' ^ GAMMA⁻¹ - BASE_BIAS) / (1 - BASE_BIAS) := by
      apply (div_le_div_iff_of_pos_right
        (by norm_num [BASE_BIAS] : (0 : ℝ) < 1 - BASE_BIAS)).mpr
      linarith
    exact mul_le_mul_of_nonneg_right h2 hN.le

/-- Witness for C6: with a ten-page render and 1000 total lines, the
round trip at line 500 stays within 2% of the document length. -/
theorem claim_C6_round_trip_witness :
    |mapToDocumentPosition (mapToPreviewRatio 500 0 1000 (List.replicate 10 (1 : ℝ)))
        (List.replicate 10 (1 : ℝ)) 1000 - 500| ≤ 0.02 * 1000 ∧
    ∀ r r', r ≤ r' →
      mapToDocumentPosition r (List.replicate 10 (1 : ℝ)) 1000
        ≤ mapToDocumentPosition r' (List.replicate 10 (1 : ℝ)) 1000 :=
  claim_C6_round_trip (List.replicate 10 (1 : ℝ)) 1000 500 (by norm_num)
    (by norm_num) (by norm_num) (by simp)
